import Mathlib

/-!
Verification development for the inbound-client merge engine of `bot.py`
(`make_merge_script`, its embedded Python, and `merge_confirm`).

The engine works on an x-ui-style SQLite database.  Two storage modes exist:

* TABLE mode: client records are rows of a `clients` table; the merge is a
  single `INSERT INTO clients ... SELECT ... WHERE c.inbound_id IN (srcs)
  AND c.uuid NOT IN (SELECT uuid FROM clients WHERE inbound_id=target)`
  wrapped in `BEGIN ... COMMIT`.
* JSON mode: client records are JSON objects in the `clients` array of a
  profile's settings blob; the embedded Python deduplicates them via
  `client_key` and writes the target's settings back with one UPDATE.

Modelling conventions:
* JSON values are the inductive `JVal`.  Python floats are out of scope
  (no claim touches numeric client data); numbers are `Int`.
* A Python `dict` is an association list with (by dict construction)
  pairwise-distinct keys; `dict.get` is first-match lookup.
* A Python `set` is a list used only through membership.
* The `inbounds` table is modelled projected to `(id, settings-column)`
  pairs; the content of the settings column is `SettingsVal`, an
  abstraction of the stored text by its `json.loads` behaviour
  (`NULL`, empty string, unparseable text, or text parsing to a `JVal`).
  `save_settings` stores `json.dumps obj`, a non-empty text that parses
  back to `obj`, hence `SettingsVal.jsonText obj`.
* SQL single-statement semantics: all reads of one statement see the
  pre-statement state (SQLite materialises a `SELECT` that reads the
  table being inserted into, and caches uncorrelated subqueries).
-/

namespace XuiHub

/-- A JSON value as produced by `json.loads` in the embedded script. -/
inductive JVal where
  | jnull
  | jbool (b : Bool)
  | jnum (n : Int)
  | jstr (s : String)
  | jarr (elems : List JVal)
  | jobj (fields : List (String × JVal))

/-- Python truthiness of a JSON value (`bool(v)`). -/
def truthy : JVal → Bool
  | JVal.jnull => false
  | JVal.jbool b => b
  | JVal.jnum n => n != 0
  | JVal.jstr s => s != ""
  | JVal.jarr xs => !xs.isEmpty
  | JVal.jobj fs => !fs.isEmpty

/-- `d.get(k)` on a Python dict given as an association list: value of the
first (by dict construction: only) entry with key `k`, if any. -/
def dictGet (fs : List (String × JVal)) (k : String) : Option JVal :=
  (fs.find? (fun p => p.1 == k)).map (fun p => p.2)

/-- JSON string-literal escaping used by `json.dumps` with
`ensure_ascii=False`: backslash and double quote (control-character
escapes elided; no claim depends on them). -/
def jescape (s : String) : String :=
  s.foldl
    (fun acc c =>
      acc ++ (if c = '\\' then "\\\\" else if c = '"' then "\\\"" else String.singleton c))
    ""

/-- A JSON string literal. -/
def jstrLit (s : String) : String := "\"" ++ jescape s ++ "\""

/-- Key order used by `json.dumps(..., sort_keys=True)`. -/
def keyLe (a b : String × String) : Prop := a.1 ≤ b.1

instance : DecidableRel keyLe := fun a b => inferInstanceAs (Decidable (a.1 ≤ b.1))

instance : IsTotal (String × String) keyLe := ⟨fun a b => le_total a.1 b.1⟩

instance : IsTrans (String × String) keyLe := ⟨fun _ _ _ h₁ h₂ => le_trans h₁ h₂⟩

/-- Sort the already-serialised object entries by key, as
`json.dumps(..., sort_keys=True)` does (keys of a dict are pairwise
distinct, so sorting the `(key, serialised value)` pairs by key yields
exactly the serialisation order of the sorted dict). -/
def sortEntries (ps : List (String × String)) : List (String × String) :=
  List.insertionSort keyLe ps

/-- One serialised object entry, `"key": value`. -/
def jentry (p : String × String) : String := jstrLit p.1 ++ ": " ++ p.2

mutual

/-- `json.dumps(v, sort_keys=True, ensure_ascii=False)`: canonical
serialisation with attribute names sorted at every object level. -/
def jdumps : JVal → String
  | JVal.jnull => "null"
  | JVal.jbool b => cond b "true" "false"
  | JVal.jnum n => toString n
  | JVal.jstr s => jstrLit s
  | JVal.jarr xs => "[" ++ String.intercalate ", " (jdumpsList xs) ++ "]"
  | JVal.jobj fs =>
      "\x7b" ++ String.intercalate ", " ((sortEntries (jdumpsEntries fs)).map jentry) ++ "\x7d"

/-- Serialisations of the elements of a JSON array. -/
def jdumpsList : List JVal → List String
  | [] => []
  | x :: xs => jdumps x :: jdumpsList xs

/-- `(key, serialised value)` pairs of a JSON object's fields. -/
def jdumpsEntries : List (String × JVal) → List (String × String)
  | [] => []
  | kv :: fs => (kv.1, jdumps kv.2) :: jdumpsEntries fs

end

/-- Python `str.strip()` whitespace test (ASCII whitespace; exotic
Unicode whitespace elided — no claim depends on it). -/
def isPyWs (c : Char) : Bool :=
  c == ' ' || c == '\t' || c == '\n' || c == '\r' || c == '\x0b' || c == '\x0c'

/-- Drop leading whitespace characters. -/
def dropWhileWs : List Char → List Char
  | [] => []
  | c :: cs => if isPyWs c then dropWhileWs cs else c :: cs

/-- Python `v.strip()`: remove leading and trailing whitespace. -/
def pyStrip (s : String) : String :=
  String.mk (List.reverse (dropWhileWs (List.reverse (dropWhileWs s.data))))

/-- The candidate identity attributes of `client_key`, in priority order. -/
def keyCandidates : List String := ["uuid", "id", "email", "password"]

/-- The loop of `client_key`: try the candidate attributes in order and
return the first present, non-empty (after strip), string-typed value as
`(attr, stripped value)`; fall back to the canonical serialisation. -/
def client_keyLoop (c : List (String × JVal)) : List String → String × String
  | [] => ("raw", jdumps (JVal.jobj c))
  | k :: ks =>
    match dictGet c k with
    | some (JVal.jstr v) => if pyStrip v = "" then client_keyLoop c ks else (k, pyStrip v)
    | _ => client_keyLoop c ks

/-- `client_key(c)` of the embedded script: the DedupKey of one client
record (a JSON object given by its fields). -/
def client_key (c : List (String × JVal)) : String × String :=
  client_keyLoop c keyCandidates

/-- DedupKey of an arbitrary JSON value: only `dict` records get one
(`isinstance(c, dict)` guards every use of `client_key`). -/
def keyOf : JVal → Option (String × String)
  | JVal.jobj fs => some (client_key fs)
  | _ => none

/-- Attribute `k` qualifies as the identity of record `c`: present,
string-typed, and non-empty after stripping
(`isinstance(v, str) and v.strip()`). -/
def qualifies (c : List (String × JVal)) (k : String) : Prop :=
  ∃ v, dictGet c k = some (JVal.jstr v) ∧ pyStrip v ≠ ""

/-- Content of the settings column of one `inbounds` row, abstracted by
its `json.loads` behaviour. -/
inductive SettingsVal where
  | nullVal
  | emptyStr
  | malformed (s : String)
  | jsonText (j : JVal)

/-- The `inbounds` table projected to `(id, settings-column value)`. -/
abbrev JDb := List (Nat × SettingsVal)

/-- `load_settings(inbound_id)`: select the settings column of the first
row with this id; `None`, an empty blob, or a parse failure degrade to
the empty object. -/
def load_settings (db : JDb) (i : Nat) : JVal :=
  match db.find? (fun r => r.1 == i) with
  | none => JVal.jobj []
  | some (_, SettingsVal.nullVal) => JVal.jobj []
  | some (_, SettingsVal.emptyStr) => JVal.jobj []
  | some (_, SettingsVal.malformed _) => JVal.jobj []
  | some (_, SettingsVal.jsonText j) => j

/-- `save_settings(inbound_id, obj)`: `UPDATE inbounds SET <col>=? WHERE
id=?` with the serialised object — every row whose id matches gets the
new blob, rows with other ids are untouched, and if no row matches the
table is unchanged. -/
def save_settings (db : JDb) (i : Nat) (obj : List (String × JVal)) : JDb :=
  db.map (fun r => if r.1 == i then (r.1, SettingsVal.jsonText (JVal.jobj obj)) else r)

/-- `tset["clients"] = v` on a Python dict: replace the value in place if
the key exists, else append the new entry. -/
def setKey (fs : List (String × JVal)) (k : String) (v : JVal) : List (String × JVal) :=
  if fs.any (fun p => p.1 == k) then
    fs.map (fun p => if p.1 == k then (p.1, v) else p)
  else fs ++ [(k, v)]

/-- `cs = g or []` followed by the not-a-list guard: a falsy value and a
truthy non-list both end up as the empty list. -/
def coerceClients (g : JVal) : List JVal :=
  match (if truthy g then g else JVal.jarr []) with
  | JVal.jarr xs => xs
  | _ => []

/-- `cs = obj.get("clients") or []` followed by the not-a-list guard
(`tclients = []` for the target, `continue` for a source — both amount
to the empty list). -/
def clientsList (fs : List (String × JVal)) : List JVal :=
  coerceClients ((dictGet fs "clients").getD JVal.jnull)

/-- `obj.get("clients")` on an arbitrary loaded settings value: attribute
access on a non-dict raises `AttributeError` (uncaught in the script). -/
def clientsOf : JVal → Except String (List JVal)
  | JVal.jobj fs => Except.ok (clientsList fs)
  | _ => Except.error "AttributeError"

/-- The clients read from one profile's settings when that read succeeds
(used to state order properties; equals what the loop processes). -/
def clientsAt (db : JDb) (i : Nat) : List JVal :=
  match load_settings db i with
  | JVal.jobj fs => clientsList fs
  | _ => []

/-- The concatenation of the sources' client lists, in the caller-given
source order, each list in its original order. -/
def flattenClients (db : JDb) : List Nat → List JVal
  | [] => []
  | sid :: rest => clientsAt db sid ++ flattenClients db rest

/-- The inner `for c in sclients` loop of the embedded script: skip
non-dict records and records whose DedupKey is already seen, append the
rest to the target list, marking their key seen and counting them. -/
def addClients : List JVal → List (String × String) → List JVal → Nat →
    List (String × String) × List JVal × Nat
  | [], ex, tcl, a => (ex, tcl, a)
  | c :: cs, ex, tcl, a =>
    match c with
    | JVal.jobj fs =>
      if client_key fs ∈ ex then addClients cs ex tcl a
      else addClients cs (client_key fs :: ex) (tcl ++ [c]) (a + 1)
    | _ => addClients cs ex tcl a

/-- The outer `for sid in src_ids` loop: load each source's settings (a
loaded non-dict value raises on `.get`), extract its clients and fold
them into the target list. -/
def mergeSources (db : JDb) : List Nat → List (String × String) → List JVal → Nat →
    Except String (List (String × String) × List JVal × Nat)
  | [], ex, tcl, a => Except.ok (ex, tcl, a)
  | sid :: rest, ex, tcl, a =>
    match clientsOf (load_settings db sid) with
    | Except.error e => Except.error e
    | Except.ok scl =>
      match addClients scl ex tcl a with
      | (ex', tcl', a') => mergeSources db rest ex' tcl' a'

/-- Result line data of a successful JSON-mode merge
(`OK_MODE=JSON OK_ADDED=.. TARGET_CLIENTS=.. SETTINGS_COL=..`). -/
structure JResult where
  added : Nat
  target_clients : Nat
  settings_col : String
deriving DecidableEq

/-- The whole JSON-mode strategy of the embedded Python: load the target's
settings, collect the existing DedupKeys of its dict clients, fold in
every source, store the extended list under `"clients"` (all other
attributes untouched) and write the target's settings back with a single
UPDATE.  An uncaught `AttributeError` (settings parsing to a non-object
JSON value) aborts the script before the write. -/
def mergeJson (db : JDb) (t : Nat) (srcs : List Nat) (col : String) :
    Except String (JResult × JDb) :=
  match load_settings db t with
  | JVal.jobj tfs =>
    let tcl := clientsList tfs
    let ex := tcl.filterMap keyOf
    (match mergeSources db srcs ex tcl 0 with
     | Except.error e => Except.error e
     | Except.ok (_, tcl', added) =>
       let tfs' := setKey tfs "clients" (JVal.jarr tcl')
       Except.ok (⟨added, tcl'.length, col⟩, save_settings db t tfs'))
  | _ => Except.error "AttributeError"

/-! ### TABLE mode (relational strategy) -/

/-- One row of the `clients` table, without its auto-assigned row id:
owning profile, the `uuid` column (nullable), and the values of the
remaining copyable columns.  The list order is the table's rowid order;
inserted rows are appended. -/
structure CRow where
  inbound_id : Nat
  uuid : Option String
  rest : List (Option String)
deriving DecidableEq

/-- `SELECT uuid FROM clients WHERE inbound_id=t`, in scan order. -/
def uuidsOf (db : List CRow) (t : Nat) : List (Option String) :=
  (db.filter (fun r => r.inbound_id == t)).map (fun r => r.uuid)

/-- SQL three-valued `x NOT IN (ys)` as used in a `WHERE` clause (only
`TRUE` keeps the row): `NULL` on a `NULL` operand or on a `NULL` in the
list when no match exists. -/
def sqlNotIn (x : Option String) (ys : List (Option String)) : Bool :=
  match x with
  | none => false
  | some v => !(ys.contains (some v)) && !(ys.contains none)

/-- The rows the merge statement's `SELECT` produces: every `clients` row
owned by a source profile whose `uuid` passes `NOT IN` against the
target's pre-statement uuids, re-owned by the target.  All reads of the
single statement see the pre-statement table. -/
def newRows (db : List CRow) (t : Nat) (srcs : List Nat) : List CRow :=
  (db.filter (fun r => srcs.contains r.inbound_id && sqlNotIn r.uuid (uuidsOf db t))).map
    (fun r => { r with inbound_id := t })

/-- `SELECT COUNT(*) FROM clients WHERE inbound_id=t`. -/
def countTarget (db : List CRow) (t : Nat) : Nat :=
  (db.filter (fun r => r.inbound_id == t)).length

/-- Result line data of a successful TABLE-mode merge. -/
structure TResult where
  added : Nat
  before : Nat
  «after» : Nat
deriving DecidableEq

/-- The TABLE-mode strategy: count the target's rows, run the single
insert statement, count again; `ADDED=$((AFTER-BEFORE))`. -/
def mergeTable (db : List CRow) (t : Nat) (srcs : List Nat) : TResult × List CRow :=
  let before := countTarget db t
  let db' := db ++ newRows db t srcs
  let a := countTarget db' t
  (⟨a - before, before, a⟩, db')

/-- The `BEGIN; INSERT ...; COMMIT;` transaction of the TABLE strategy:
it contains exactly one mutating statement, so SQLite's atomic-commit
contract gives all-or-nothing — a failed apply rolls back to the
pre-transaction table. `fails` says whether the statement fails. -/
def runTableTxn (db : List CRow) (t : Nat) (srcs : List Nat) (fails : Bool) : List CRow :=
  if fails then db else db ++ newRows db t srcs

/-! ### Schema classification and the script driver -/

/-- What the script reads about the database's schema: the table names in
`sqlite_master`, and the column names of `inbounds` and of `clients`
(empty when the table is absent — `PRAGMA table_info` of a missing table
yields no rows). -/
structure Schema where
  tables : List String
  inboundsCols : List String
  clientsCols : List String
deriving DecidableEq

/-- `COLS`: the `clients` columns minus `id` and `inbound_id`. -/
def copyableCols (s : Schema) : List String :=
  s.clientsCols.filter (fun c => c != "id" && c != "inbound_id")

/-- The prioritised candidate names for the settings column. -/
def settingsCandidates : List String := ["settings", "setting", "settingsJson", "settings_json"]

/-- The first candidate settings column present on `inbounds`. -/
def settingsColOf (cols : List String) : Option String :=
  settingsCandidates.find? (fun c => cols.contains c)

/-- Outcome of schema classification. -/
inductive Classified where
  | table
  | json (col : String)
  | errNoClientsTable
  | errNoUuid
  | errNoSettingsCol
deriving DecidableEq

/-- Schema classification, in the script's order: a `clients` table first
(then its copyable columns and its `uuid` column are required); otherwise
the settings-column scan on `inbounds`.  Read-only: a pure function of
the schema. -/
def classify (s : Schema) : Classified :=
  if s.tables.contains "clients" then
    if copyableCols s = [] then Classified.errNoClientsTable
    else if s.clientsCols.contains "uuid" then Classified.table
    else Classified.errNoUuid
  else
    match settingsColOf s.inboundsCols with
    | some c => Classified.json c
    | none => Classified.errNoSettingsCol

/-- The whole database the script sees. -/
structure Database where
  schema : Schema
  clients : List CRow
  inbounds : JDb

/-- The success line of the TABLE branch. -/
def lineTable (before a : Nat) : String :=
  "OK_MODE=TABLE OK_ADDED=" ++ toString (a - before) ++ " BEFORE=" ++ toString before
    ++ " AFTER=" ++ toString a

/-- The success line of the JSON branch. -/
def lineJson (r : JResult) : String :=
  "OK_MODE=JSON OK_ADDED=" ++ toString r.added ++ " TARGET_CLIENTS="
    ++ toString r.target_clients ++ " SETTINGS_COL=" ++ r.settings_col

/-- What one run of the merge script emits: an `OK_...` line with exit 0,
an `ERR_...` line with its numeric exit code, or an uncaught interpreter
crash (non-zero exit, no structured line). -/
inductive ScriptOut where
  | okLine (line : String)
  | errLine (line : String) (code : Nat)
  | crash (code : Nat)
deriving DecidableEq

/-- The merge script end to end (after the sqlite3/python3 presence checks
and the best-effort backup copy, neither of which touches the database):
classify, run the selected strategy, emit the structured line.  A failed
classification emits its `ERR_` line and mutates nothing; an uncaught
Python exception aborts with no line and no write. -/
def runMergeScript (db : Database) (t : Nat) (srcs : List Nat) : ScriptOut × Database :=
  match classify db.schema with
  | Classified.errNoClientsTable => (ScriptOut.errLine "ERR_NO_CLIENTS_TABLE" 11, db)
  | Classified.errNoUuid => (ScriptOut.errLine "ERR_NO_UUID" 12, db)
  | Classified.errNoSettingsCol => (ScriptOut.errLine "ERR_NO_SETTINGS_COL" 20, db)
  | Classified.table =>
    match mergeTable db.clients t srcs with
    | (r, c') => (ScriptOut.okLine (lineTable r.before r.after), { db with clients := c' })
  | Classified.json col =>
    match mergeJson db.inbounds t srcs col with
    | Except.ok (r, rows') => (ScriptOut.okLine (lineJson r), { db with inbounds := rows' })
    | Except.error _ => (ScriptOut.crash 1, db)

/-- Split a character list on spaces (the semantics of
`String.splitOn " "`). -/
def splitOnSpace : List Char → List (List Char)
  | [] => [[]]
  | c :: cs =>
    match splitOnSpace cs with
    | [] => if c = ' ' then [[], [c]] else [[c]]
    | t :: ts => if c = ' ' then [] :: t :: ts else (c :: t) :: ts

/-- Modelled from the spec (for comparison with the emitted lines, not
from the source): the success-line format the spec claims for both
modes, `OK_MODE=<TABLE|JSON> OK_ADDED=<n> BEFORE=<n> AFTER=<n>` — four
space-separated fields with these labels. -/
def specOkFormat (line : String) : Bool :=
  match splitOnSpace line.data with
  | [a, b, c, d] =>
    "OK_MODE=".data.isPrefixOf a && "OK_ADDED=".data.isPrefixOf b
      && "BEFORE=".data.isPrefixOf c && "AFTER=".data.isPrefixOf d
  | _ => false

/-- A settings cell the embedded Python's `.get` survives: anything that
degrades to the empty object, or text parsing to a JSON object.  The one
bad case is text parsing to a non-object JSON value, on which attribute
access raises. -/
def goodCell : SettingsVal → Bool
  | SettingsVal.jsonText (JVal.jobj _) => true
  | SettingsVal.jsonText _ => false
  | _ => true

/-! ### Pre-merge validation (`merge_confirm`) -/

/-- A validation failure of `merge_confirm`, reported to the operator
before the merge script is ever sent. -/
inductive VErr where
  | targetNotFound
  | sourcesNotFound (ports : List Nat)
deriving DecidableEq

/-- `get_inbound_id` yields a falsy value: no row for the port (or id 0,
which `if not iid` also treats as missing). -/
def falsyId : Option Nat → Bool
  | none => true
  | some n => n == 0

/-- The source-port resolution loop of `merge_confirm`: resolved ids and
missing ports, both in the caller-given order. -/
def resolveSources (lookup : Nat → Option Nat) : List Nat → List Nat × List Nat
  | [] => ([], [])
  | p :: ps =>
    match resolveSources lookup ps with
    | (ids, missing) =>
      match lookup p with
      | some n => if n == 0 then (ids, p :: missing) else (n :: ids, missing)
      | none => (ids, p :: missing)

/-- `merge_confirm` from target-port resolution onward, generic in the
engine it hands the resolved ids to: resolve the target (falsy → target
error), resolve every source port collecting all missing ones, and only
when none is missing invoke the engine on the state.  On any validation
error the state is returned untouched. -/
def merge_confirm_model {σ β : Type} (lookup : Nat → Option Nat) (tport : Nat)
    (sports : List Nat) (st : σ) (engine : σ → Nat → List Nat → σ × β) :
    σ × Except VErr β :=
  match lookup tport with
  | none => (st, Except.error VErr.targetNotFound)
  | some tid =>
    if tid == 0 then (st, Except.error VErr.targetNotFound)
    else
      match resolveSources lookup sports with
      | (sids, missing) =>
        if missing.isEmpty then
          match engine st tid sids with
          | (st', r) => (st', Except.ok r)
        else (st, Except.error (VErr.sourcesNotFound missing))

/-! ### Helper lemmas: dict update, settings load/save -/

theorem find?_cons_of_neg {α : Type} (p : α → Bool) (a : α) (l : List α) (h : p a = false) :
    (a :: l).find? p = l.find? p := by
  simp [List.find?, h]

theorem find?_cons_of_pos {α : Type} (p : α → Bool) (a : α) (l : List α) (h : p a = true) :
    (a :: l).find? p = some a := by
  simp [List.find?, h]

theorem dictGet_updMap (fs : List (String × JVal)) (k : String) (v : JVal)
    (h : fs.any (fun p => p.1 == k) = true) :
    dictGet (fs.map (fun p => if p.1 == k then (p.1, v) else p)) k = some v := by
  induction fs with
  | nil => simp at h
  | cons p fs ih =>
    by_cases hk : (p.1 == k) = true
    · simp [dictGet, List.find?, hk]
    · simp only [Bool.not_eq_true] at hk
      simp only [List.any_cons, hk, Bool.false_or] at h
      simp only [List.map_cons, hk, if_false]
      rw [dictGet, find?_cons_of_neg _ _ _ (by simpa using hk)]
      exact ih h

theorem find?_append_of_none {α : Type} (p : α → Bool) (l₁ l₂ : List α)
    (h : l₁.find? p = none) : (l₁ ++ l₂).find? p = l₂.find? p := by
  induction l₁ with
  | nil => simp
  | cons a l ih =>
    rw [List.find?_eq_none] at h
    have ha : p a = false := by
      have := h a (by simp)
      simpa using this
    rw [List.cons_append, find?_cons_of_neg _ _ _ ha]
    exact ih (by
      rw [List.find?_eq_none]
      intro x hx
      exact h x (by simp [hx]))

theorem dictGet_setKey (fs : List (String × JVal)) (k : String) (v : JVal) :
    dictGet (setKey fs k v) k = some v := by
  unfold setKey
  by_cases h : fs.any (fun p => p.1 == k) = true
  · simp only [h, if_true]
    exact dictGet_updMap fs k v h
  · rw [if_neg h]
    have hn : fs.find? (fun p => p.1 == k) = none := by
      rw [List.find?_eq_none]
      intro x hx hpx
      exact h (List.any_eq_true.2 ⟨x, hx, hpx⟩)
    unfold dictGet
    rw [find?_append_of_none _ _ _ hn]
    simp [List.find?]

theorem clientsList_setKey (fs : List (String × JVal)) (l : List JVal) :
    clientsList (setKey fs "clients" (JVal.jarr l)) = l := by
  unfold clientsList
  rw [dictGet_setKey]
  cases l with
  | nil => rfl
  | cons x xs => rfl

theorem setKey_setKey (fs : List (String × JVal)) (k : String) (v : JVal) :
    setKey (setKey fs k v) k v = setKey fs k v := by
  by_cases h : fs.any (fun p => p.1 == k) = true
  · unfold setKey
    simp only [h, if_true]
    have hany : ((fs.map (fun p => if p.1 == k then (p.1, v) else p)).any
        (fun p => p.1 == k)) = true := by
      rw [List.any_map]
      refine List.any_eq_true.2 ?_
      rcases List.any_eq_true.1 h with ⟨p, hp, hpk⟩
      refine ⟨p, hp, ?_⟩
      simp only [Function.comp]
      by_cases hc : (p.1 == k) = true <;> simp_all
    simp only [hany, if_true]
    rw [List.map_map]
    refine List.map_congr_left ?_
    intro p _
    by_cases hc : (p.1 == k) = true <;> simp [Function.comp, hc]
  · unfold setKey
    simp only [if_neg h]
    have hany : ((fs ++ [(k, v)]).any (fun p => p.1 == k)) = true := by
      simp [List.any_append]
    rw [if_pos hany]
    rw [List.map_append]
    have h1 : fs.map (fun p => if p.1 == k then (p.1, v) else p) = fs := by
      have : ∀ p ∈ fs, (if p.1 == k then (p.1, v) else p) = p := by
        intro p hp
        have : (p.1 == k) = false := by
          by_contra hc
          simp only [Bool.not_eq_false] at hc
          exact h (List.any_eq_true.2 ⟨p, hp, hc⟩)
        simp [this]
      calc fs.map (fun p => if p.1 == k then (p.1, v) else p)
          = fs.map id := List.map_congr_left (by simpa using this)
        _ = fs := List.map_id fs
    rw [h1]
    simp

theorem find?_save (db : JDb) (t i : Nat) (obj : List (String × JVal)) :
    (save_settings db t obj).find? (fun r => r.1 == i)
      = (db.find? (fun r => r.1 == i)).map
          (fun r => if r.1 == t then (r.1, SettingsVal.jsonText (JVal.jobj obj)) else r) := by
  induction db with
  | nil => simp [save_settings]
  | cons p db ih =>
    unfold save_settings
    simp only [List.map_cons]
    by_cases hi : (p.1 == i) = true
    · have hfst : ((if p.1 == t then (p.1, SettingsVal.jsonText (JVal.jobj obj)) else p).1 == i)
          = true := by
        by_cases ht : (p.1 == t) = true <;> simp [ht, hi]
      rw [find?_cons_of_pos (fun r : Nat × SettingsVal => r.1 == i) _ _ hfst,
        find?_cons_of_pos (fun r : Nat × SettingsVal => r.1 == i) _ _ hi]
      simp
    · have hfst : ((if p.1 == t then (p.1, SettingsVal.jsonText (JVal.jobj obj)) else p).1 == i)
          = false := by
        by_cases ht : (p.1 == t) = true <;> simp_all
      rw [find?_cons_of_neg (fun r : Nat × SettingsVal => r.1 == i) _ _ hfst,
        find?_cons_of_neg (fun r : Nat × SettingsVal => r.1 == i) _ _ (by simpa using hi)]
      exact ih

theorem load_save_ne (db : JDb) (t i : Nat) (obj : List (String × JVal)) (h : i ≠ t) :
    load_settings (save_settings db t obj) i = load_settings db i := by
  unfold load_settings
  rw [find?_save]
  cases hf : db.find? (fun r => r.1 == i) with
  | none => rfl
  | some r =>
    obtain ⟨ri, rv⟩ := r
    have hri : ri = i := by simpa using List.find?_some hf
    subst hri
    simp [h]

theorem load_save_self (db : JDb) (t : Nat) (obj : List (String × JVal)) (r₀ : Nat × SettingsVal)
    (h : db.find? (fun r => r.1 == t) = some r₀) :
    load_settings (save_settings db t obj) t = JVal.jobj obj := by
  unfold load_settings
  rw [find?_save, h]
  have h' := List.find?_some h
  simp [show r₀.1 = t by simpa using h']

theorem save_absent (db : JDb) (t : Nat) (obj : List (String × JVal))
    (h : ∀ p ∈ db, p.1 ≠ t) : save_settings db t obj = db := by
  unfold save_settings
  calc db.map (fun r => if r.1 == t then (r.1, SettingsVal.jsonText (JVal.jobj obj)) else r)
      = db.map id := by
        refine List.map_congr_left ?_
        intro p hp
        have : (p.1 == t) = false := by simp [h p hp]
        simp [this]
    _ = db := List.map_id db

theorem save_save (db : JDb) (t : Nat) (obj : List (String × JVal)) :
    save_settings (save_settings db t obj) t obj = save_settings db t obj := by
  unfold save_settings
  rw [List.map_map]
  refine List.map_congr_left ?_
  intro p _
  by_cases ht : (p.1 == t) = true <;> simp [Function.comp, ht]

/-! ### Helper lemmas: the JSON-mode merge loops -/

theorem keyOf_jobj (fs : List (String × JVal)) : keyOf (JVal.jobj fs) = some (client_key fs) :=
  rfl

theorem keyOf_some (c : JVal) (k : String × String) (h : keyOf c = some k) :
    ∃ fs, c = JVal.jobj fs ∧ k = client_key fs := by
  cases c <;> simp_all [keyOf]

theorem addClients_skip (c : JVal) (cs : List JVal) (ex : List (String × String))
    (tcl : List JVal) (a : Nat) (hc : keyOf c = none) :
    addClients (c :: cs) ex tcl a = addClients cs ex tcl a := by
  cases c <;> simp_all [addClients, keyOf]

theorem addClients_spec (cs : List JVal) (ex ex' : List (String × String))
    (tcl tcl' : List JVal) (a a' : Nat)
    (h : addClients cs ex tcl a = (ex', tcl', a')) :
    ∃ suf,
      tcl' = tcl ++ suf ∧
      suf.Sublist cs ∧
      (∀ c ∈ suf, ∃ fs, c = JVal.jobj fs) ∧
      List.Pairwise (fun c d => keyOf c ≠ keyOf d) suf ∧
      (∀ c ∈ suf, ∀ k, keyOf c = some k → k ∉ ex) ∧
      (∀ k, k ∈ ex' ↔ k ∈ ex ∨ ∃ c ∈ suf, keyOf c = some k) ∧
      (∀ c ∈ cs, ∀ fs, c = JVal.jobj fs → client_key fs ∈ ex') ∧
      a' = a + suf.length := by
  induction cs generalizing ex ex' tcl tcl' a a' with
  | nil =>
    simp only [addClients] at h
    obtain ⟨h1, h2, h3⟩ := Prod.mk.injEq .. ▸ h
    refine ⟨[], ?_, ?_, ?_, ?_, ?_, ?_, ?_, ?_⟩ <;> simp_all
  | cons c cs ih =>
    cases hko : keyOf c with
    | none =>
      rw [addClients_skip c cs ex tcl a hko] at h
      obtain ⟨suf, h1, h2, h3, h4, h5, h6, h7, h8⟩ := ih ex ex' tcl tcl' a a' h
      refine ⟨suf, h1, h2.cons c, h3, h4, h5, h6, ?_, h8⟩
      intro c' hc' fs hfs
      rcases List.mem_cons.1 hc' with hc' | hc'
      · subst hc'
        rw [hfs, keyOf_jobj] at hko
        exact absurd hko (by simp)
      · exact h7 c' hc' fs hfs
    | some k =>
      obtain ⟨fs, hcfs, hkck⟩ := keyOf_some c k hko
      subst hcfs
      subst hkck
      simp only [addClients] at h
      by_cases hmem : client_key fs ∈ ex
      · rw [if_pos hmem] at h
        obtain ⟨suf, h1, h2, h3, h4, h5, h6, h7, h8⟩ := ih ex ex' tcl tcl' a a' h
        refine ⟨suf, h1, h2.cons _, h3, h4, h5, h6, ?_, h8⟩
        intro c' hc' fs' hfs'
        rcases List.mem_cons.1 hc' with hc' | hc'
        · subst hc'
          obtain rfl : fs = fs' := by simpa using hfs'
          exact (h6 (client_key fs)).2 (Or.inl hmem)
        · exact h7 c' hc' fs' hfs'
      · rw [if_neg hmem] at h
        obtain ⟨suf, h1, h2, h3, h4, h5, h6, h7, h8⟩ :=
          ih (client_key fs :: ex) ex' (tcl ++ [JVal.jobj fs]) tcl' (a + 1) a' h
        refine ⟨JVal.jobj fs :: suf, ?_, h2.cons₂ _, ?_, ?_, ?_, ?_, ?_, ?_⟩
        · rw [h1, List.append_assoc]
          rfl
        · intro c' hc'
          rcases List.mem_cons.1 hc' with hc' | hc'
          · exact ⟨fs, hc'⟩
          · exact h3 c' hc'
        · refine List.Pairwise.cons ?_ h4
          intro d hd
          obtain ⟨gs, hgs⟩ := h3 d hd
          have hkd : client_key gs ∉ client_key fs :: ex := h5 d hd _ (by rw [hgs, keyOf_jobj])
          rw [hgs, keyOf_jobj, keyOf_jobj]
          intro heq
          exact hkd (by simp at heq; simp [heq])
        · intro c' hc' k' hk'
          rcases List.mem_cons.1 hc' with hc' | hc'
          · subst hc'
            rw [keyOf_jobj] at hk'
            obtain rfl : client_key fs = k' := by simpa using hk'
            exact hmem
          · intro hk''
            exact h5 c' hc' k' hk' (List.mem_cons_of_mem _ hk'')
        · intro k'
          rw [h6 k']
          constructor
          · rintro (hk' | ⟨d, hd, hkd⟩)
            · rcases List.mem_cons.1 hk' with rfl | hk'
              · exact Or.inr ⟨JVal.jobj fs, List.mem_cons_self _ _, keyOf_jobj fs⟩
              · exact Or.inl hk'
            · exact Or.inr ⟨d, List.mem_cons_of_mem _ hd, hkd⟩
          · rintro (hk' | ⟨d, hd, hkd⟩)
            · exact Or.inl (List.mem_cons_of_mem _ hk')
            · rcases List.mem_cons.1 hd with rfl | hd
              · rw [keyOf_jobj] at hkd
                obtain rfl : client_key fs = k' := by simpa using hkd
                exact Or.inl (List.mem_cons_self _ _)
              · exact Or.inr ⟨d, hd, hkd⟩
        · intro c' hc' fs' hfs'
          rcases List.mem_cons.1 hc' with hc' | hc'
          · subst hc'
            obtain rfl : fs = fs' := by simpa using hfs'
            exact (h6 (client_key fs)).2 (Or.inl (List.mem_cons_self _ _))
          · exact h7 c' hc' fs' hfs'
        · rw [h8]
          simp
          omega

theorem clientsOf_jobj (fs : List (String × JVal)) :
    clientsOf (JVal.jobj fs) = Except.ok (clientsList fs) := rfl

theorem clientsAt_eq (db : JDb) (sid : Nat) (fs : List (String × JVal))
    (h : load_settings db sid = JVal.jobj fs) : clientsAt db sid = clientsList fs := by
  unfold clientsAt
  rw [h]

theorem mergeSources_spec (db : JDb) (sids : List Nat) (ex ex' : List (String × String))
    (tcl tcl' : List JVal) (a a' : Nat)
    (h : mergeSources db sids ex tcl a = Except.ok (ex', tcl', a')) :
    ∃ suf,
      tcl' = tcl ++ suf ∧
      suf.Sublist (flattenClients db sids) ∧
      (∀ c ∈ suf, ∃ fs, c = JVal.jobj fs) ∧
      List.Pairwise (fun c d => keyOf c ≠ keyOf d) suf ∧
      (∀ c ∈ suf, ∀ k, keyOf c = some k → k ∉ ex) ∧
      (∀ k, k ∈ ex' ↔ k ∈ ex ∨ ∃ c ∈ suf, keyOf c = some k) ∧
      (∀ sid ∈ sids, ∀ c ∈ clientsAt db sid, ∀ fs, c = JVal.jobj fs → client_key fs ∈ ex') ∧
      (∀ sid ∈ sids, ∃ fs, load_settings db sid = JVal.jobj fs) ∧
      a' = a + suf.length := by
  induction sids generalizing ex tcl a with
  | nil =>
    simp only [mergeSources, Except.ok.injEq, Prod.mk.injEq] at h
    obtain ⟨h1, h2, h3⟩ := h
    refine ⟨[], ?_, ?_, ?_, ?_, ?_, ?_, ?_, ?_, ?_⟩ <;> simp_all
  | cons sid rest ih =>
    simp only [mergeSources] at h
    cases hload : load_settings db sid with
    | jobj fs =>
      rw [hload] at h
      simp only [clientsOf_jobj] at h
      rcases hA : addClients (clientsList fs) ex tcl a with ⟨ex₁, tcl₁, a₁⟩
      rw [hA] at h
      obtain ⟨suf₁, g1, g2, g3, g4, g5, g6, g7, g8⟩ :=
        addClients_spec (clientsList fs) ex ex₁ tcl tcl₁ a a₁ hA
      obtain ⟨suf₂, k1, k2, k3, k4, k5, k6, k7, k8, k9⟩ := ih ex₁ tcl₁ a₁ h
      have hClAt : clientsAt db sid = clientsList fs := clientsAt_eq db sid fs hload
      refine ⟨suf₁ ++ suf₂, ?_, ?_, ?_, ?_, ?_, ?_, ?_, ?_, ?_⟩
      · rw [k1, g1, List.append_assoc]
      · simp only [flattenClients, hClAt]
        exact g2.append k2
      · intro c hc
        rcases List.mem_append.1 hc with hc | hc
        · exact g3 c hc
        · exact k3 c hc
      · rw [List.pairwise_append]
        refine ⟨g4, k4, ?_⟩
        intro c hc d hd
        obtain ⟨cf, hcf⟩ := g3 c hc
        obtain ⟨df, hdf⟩ := k3 d hd
        have hck : client_key cf ∈ ex₁ := (g6 _).2 (Or.inr ⟨c, hc, by rw [hcf, keyOf_jobj]⟩)
        have hdk : client_key df ∉ ex₁ := k5 d hd _ (by rw [hdf, keyOf_jobj])
        rw [hcf, hdf, keyOf_jobj, keyOf_jobj]
        intro heq
        refine hdk ?_
        have hkk : client_key cf = client_key df := by simpa using heq
        exact hkk ▸ hck
      · intro c hc k hk
        rcases List.mem_append.1 hc with hc | hc
        · exact g5 c hc k hk
        · intro hke
          exact k5 c hc k hk ((g6 k).2 (Or.inl hke))
      · intro k
        rw [k6 k, g6 k]
        constructor
        · rintro ((hk | ⟨c, hc, hkc⟩) | ⟨c, hc, hkc⟩)
          · exact Or.inl hk
          · exact Or.inr ⟨c, List.mem_append.2 (Or.inl hc), hkc⟩
          · exact Or.inr ⟨c, List.mem_append.2 (Or.inr hc), hkc⟩
        · rintro (hk | ⟨c, hc, hkc⟩)
          · exact Or.inl (Or.inl hk)
          · rcases List.mem_append.1 hc with hc | hc
            · exact Or.inl (Or.inr ⟨c, hc, hkc⟩)
            · exact Or.inr ⟨c, hc, hkc⟩
      · intro sid' hsid' c hc fs' hfs'
        rcases List.mem_cons.1 hsid' with rfl | hsid'
        · rw [hClAt] at hc
          have : client_key fs' ∈ ex₁ := g7 c hc fs' hfs'
          exact (k6 _).2 (Or.inl this)
        · exact k7 sid' hsid' c hc fs' hfs'
      · intro sid' hsid'
        rcases List.mem_cons.1 hsid' with rfl | hsid'
        · exact ⟨fs, hload⟩
        · exact k8 sid' hsid'
      · rw [k9, g8]
        simp
        omega
    | jnull => rw [hload] at h; simp [clientsOf] at h
    | jbool b => rw [hload] at h; simp [clientsOf] at h
    | jnum n => rw [hload] at h; simp [clientsOf] at h
    | jstr s => rw [hload] at h; simp [clientsOf] at h
    | jarr xs => rw [hload] at h; simp [clientsOf] at h

theorem addClients_noNew (cs : List JVal) (ex : List (String × String)) (tcl : List JVal) (a : Nat)
    (h : ∀ c ∈ cs, ∀ fs, c = JVal.jobj fs → client_key fs ∈ ex) :
    addClients cs ex tcl a = (ex, tcl, a) := by
  induction cs with
  | nil => rfl
  | cons c cs ih =>
    have htail : ∀ c' ∈ cs, ∀ fs, c' = JVal.jobj fs → client_key fs ∈ ex := by
      intro c' hc' fs hfs
      exact h c' (List.mem_cons_of_mem _ hc') fs hfs
    cases hko : keyOf c with
    | none => rw [addClients_skip c cs ex tcl a hko]; exact ih htail
    | some k =>
      obtain ⟨fs, rfl, rfl⟩ := keyOf_some c k hko
      have hmem : client_key fs ∈ ex := h _ (List.mem_cons_self _ _) fs rfl
      simp only [addClients, if_pos hmem]
      exact ih htail

theorem mergeSources_noNew (db : JDb) (sids : List Nat) (ex : List (String × String))
    (tcl : List JVal) (a : Nat)
    (hload : ∀ sid ∈ sids, ∃ fs, load_settings db sid = JVal.jobj fs)
    (hkeys : ∀ sid ∈ sids, ∀ c ∈ clientsAt db sid, ∀ fs, c = JVal.jobj fs → client_key fs ∈ ex) :
    mergeSources db sids ex tcl a = Except.ok (ex, tcl, a) := by
  induction sids with
  | nil => rfl
  | cons sid rest ih =>
    obtain ⟨fs, hfs⟩ := hload sid (List.mem_cons_self _ _)
    simp only [mergeSources, hfs, clientsOf_jobj]
    have hscl : clientsList fs = clientsAt db sid := (clientsAt_eq db sid fs hfs).symm
    rw [addClients_noNew (clientsList fs) ex tcl a
      (by rw [hscl]; exact hkeys sid (List.mem_cons_self _ _))]
    exact ih (fun s hs => hload s (List.mem_cons_of_mem _ hs))
      (fun s hs => hkeys s (List.mem_cons_of_mem _ hs))

theorem load_goodCell (db : JDb) (i : Nat) (h : ∀ p ∈ db, goodCell p.2 = true) :
    ∃ fs, load_settings db i = JVal.jobj fs := by
  unfold load_settings
  cases hf : db.find? (fun r => r.1 == i) with
  | none => exact ⟨[], rfl⟩
  | some r =>
    have hr : r ∈ db := List.mem_of_find?_eq_some hf
    have hg := h r hr
    obtain ⟨ri, rv⟩ := r
    cases rv with
    | nullVal => exact ⟨[], rfl⟩
    | emptyStr => exact ⟨[], rfl⟩
    | malformed s => exact ⟨[], rfl⟩
    | jsonText j =>
      cases j with
      | jobj fs => exact ⟨fs, rfl⟩
      | jnull => simp [goodCell] at hg
      | jbool b => simp [goodCell] at hg
      | jnum n => simp [goodCell] at hg
      | jstr s => simp [goodCell] at hg
      | jarr xs => simp [goodCell] at hg

theorem mergeJson_ok (db : JDb) (t : Nat) (srcs : List Nat) (col : String) (r : JResult)
    (db' : JDb) (h : mergeJson db t srcs col = Except.ok (r, db')) :
    ∃ tfs ex' tcl',
      load_settings db t = JVal.jobj tfs ∧
      mergeSources db srcs ((clientsList tfs).filterMap keyOf) (clientsList tfs) 0
        = Except.ok (ex', tcl', r.added) ∧
      r.target_clients = tcl'.length ∧
      r.settings_col = col ∧
      db' = save_settings db t (setKey tfs "clients" (JVal.jarr tcl')) := by
  unfold mergeJson at h
  cases hload : load_settings db t with
  | jobj tfs =>
    rw [hload] at h
    simp only [] at h
    rcases hms : mergeSources db srcs ((clientsList tfs).filterMap keyOf) (clientsList tfs) 0 with
      e | out
    · rw [hms] at h
      simp at h
    · obtain ⟨ex'', tcl', added⟩ := out
      rw [hms] at h
      simp only [Except.ok.injEq, Prod.mk.injEq] at h
      obtain ⟨hr, hdb⟩ := h
      subst hr
      exact ⟨tfs, ex'', tcl', rfl, hms, rfl, rfl, hdb.symm⟩
  | jnull => rw [hload] at h; simp at h
  | jbool b => rw [hload] at h; simp at h
  | jnum n => rw [hload] at h; simp at h
  | jstr s => rw [hload] at h; simp at h
  | jarr xs => rw [hload] at h; simp at h

theorem mergeSources_ok_of_loads (db : JDb) (sids : List Nat) (ex : List (String × String))
    (tcl : List JVal) (a : Nat)
    (h : ∀ sid ∈ sids, ∃ fs, load_settings db sid = JVal.jobj fs) :
    ∃ out, mergeSources db sids ex tcl a = Except.ok out := by
  induction sids generalizing ex tcl a with
  | nil => exact ⟨(ex, tcl, a), rfl⟩
  | cons sid rest ih =>
    obtain ⟨fs, hfs⟩ := h sid (List.mem_cons_self _ _)
    rcases hA : addClients (clientsList fs) ex tcl a with ⟨ex₁, tcl₁, a₁⟩
    obtain ⟨out, hout⟩ := ih ex₁ tcl₁ a₁ (fun s hs => h s (List.mem_cons_of_mem _ hs))
    refine ⟨out, ?_⟩
    simp only [mergeSources, hfs, clientsOf_jobj, hA]
    exact hout

theorem mergeJson_ok_of_good (db : JDb) (t : Nat) (srcs : List Nat) (col : String)
    (hg : ∀ p ∈ db, goodCell p.2 = true) :
    ∃ r db', mergeJson db t srcs col = Except.ok (r, db') := by
  obtain ⟨tfs, htfs⟩ := load_goodCell db t hg
  obtain ⟨⟨ex', tcl', added⟩, hms⟩ :=
    mergeSources_ok_of_loads db srcs ((clientsList tfs).filterMap keyOf) (clientsList tfs) 0
      (fun sid _ => load_goodCell db sid hg)
  refine ⟨⟨added, tcl'.length, col⟩,
    save_settings db t (setKey tfs "clients" (JVal.jarr tcl')), ?_⟩
  unfold mergeJson
  rw [htfs]
  simp only []
  rw [hms]

/-! ### Helper lemmas: TABLE mode -/

theorem countTarget_append (db l : List CRow) (t : Nat) :
    countTarget (db ++ l) t = countTarget db t + countTarget l t := by
  simp [countTarget, List.filter_append]

theorem newRows_inbound (db : List CRow) (t : Nat) (srcs : List Nat) :
    ∀ r ∈ newRows db t srcs, r.inbound_id = t := by
  intro r hr
  simp only [newRows, List.mem_map, List.mem_filter] at hr
  obtain ⟨r₀, _, rfl⟩ := hr
  rfl

theorem countTarget_newRows (db : List CRow) (t : Nat) (srcs : List Nat) :
    countTarget (newRows db t srcs) t = (newRows db t srcs).length := by
  unfold countTarget
  rw [List.filter_eq_self.2]
  intro r hr
  simp [newRows_inbound db t srcs r hr]

theorem uuidsOf_append (db l : List CRow) (t : Nat) :
    uuidsOf (db ++ l) t = uuidsOf db t ++ uuidsOf l t := by
  simp [uuidsOf, List.filter_append]

theorem uuidsOf_newRows (db : List CRow) (t : Nat) (srcs : List Nat) :
    uuidsOf (newRows db t srcs) t = (newRows db t srcs).map (fun r => r.uuid) := by
  unfold uuidsOf
  rw [List.filter_eq_self.2]
  intro r hr
  simp [newRows_inbound db t srcs r hr]

theorem sqlNotIn_true_iff (x : Option String) (U : List (Option String)) :
    sqlNotIn x U = true ↔ ∃ v, x = some v ∧ some v ∉ U ∧ (none : Option String) ∉ U := by
  cases x with
  | none => simp [sqlNotIn]
  | some v => simp [sqlNotIn, List.contains, List.elem_eq_mem]

theorem sqlNotIn_append_false (x : Option String) (U W : List (Option String))
    (h : sqlNotIn x U = false) : sqlNotIn x (U ++ W) = false := by
  cases x with
  | none => simp [sqlNotIn]
  | some v =>
    simp only [sqlNotIn, List.contains, List.elem_eq_mem, List.mem_append] at h ⊢
    revert h
    by_cases h1 : some v ∈ U <;> by_cases h2 : (none : Option String) ∈ U <;> simp_all

theorem sqlNotIn_mem_false (x : Option String) (U : List (Option String)) (hx : x ∈ U) :
    sqlNotIn x U = false := by
  cases x with
  | none => simp [sqlNotIn]
  | some v =>
    simp only [sqlNotIn, List.contains, List.elem_eq_mem]
    simp [hx]

theorem newRows_of_merged (db : List CRow) (t : Nat) (srcs : List Nat) :
    newRows (db ++ newRows db t srcs) t srcs = [] := by
  have hU : uuidsOf (db ++ newRows db t srcs) t
      = uuidsOf db t ++ (newRows db t srcs).map (fun r => r.uuid) := by
    rw [uuidsOf_append, uuidsOf_newRows]
  have hfil : (db ++ newRows db t srcs).filter
      (fun r => srcs.contains r.inbound_id
        && sqlNotIn r.uuid (uuidsOf (db ++ newRows db t srcs) t)) = [] := by
    rw [List.filter_eq_nil_iff]
    intro r hr
    simp only [Bool.and_eq_true, not_and, Bool.not_eq_true]
    intro hsrc
    rw [hU]
    rcases List.mem_append.1 hr with hrdb | hrN
    · by_cases hq : (srcs.contains r.inbound_id && sqlNotIn r.uuid (uuidsOf db t)) = true
      · have hrN : { r with inbound_id := t } ∈ newRows db t srcs := by
          simp only [newRows, List.mem_map, List.mem_filter]
          exact ⟨r, ⟨hrdb, hq⟩, rfl⟩
        have hmem : r.uuid ∈ (newRows db t srcs).map (fun r => r.uuid) :=
          List.mem_map.2 ⟨{ r with inbound_id := t }, hrN, rfl⟩
        exact sqlNotIn_mem_false _ _ (List.mem_append.2 (Or.inr hmem))
      · simp only [Bool.and_eq_true, not_and, Bool.not_eq_true] at hq
        exact sqlNotIn_append_false _ _ _ (hq hsrc)
    · have hmem : r.uuid ∈ (newRows db t srcs).map (fun r => r.uuid) :=
        List.mem_map.2 ⟨r, hrN, rfl⟩
      exact sqlNotIn_mem_false _ _ (List.mem_append.2 (Or.inr hmem))
  show ((db ++ newRows db t srcs).filter
      (fun r => srcs.contains r.inbound_id
        && sqlNotIn r.uuid (uuidsOf (db ++ newRows db t srcs) t))).map
      (fun r : CRow => CRow.mk t r.uuid r.rest) = []
  rw [hfil]
  rfl

/-! ### Helper lemmas: `client_key` and canonical serialisation -/

theorem sorted_nodup_fst_perm_eq :
    ∀ (l₁ l₂ : List (String × String)), List.Sorted keyLe l₁ → List.Sorted keyLe l₂ →
      l₁.Perm l₂ → (l₁.map Prod.fst).Nodup → l₁ = l₂ := by
  intro l₁
  induction l₁ with
  | nil =>
    intro l₂ _ _ hp _
    exact List.Perm.nil_eq hp
  | cons a t₁ ih =>
    intro l₂ hs₁ hs₂ hp hn
    cases l₂ with
    | nil => exact absurd hp.symm (by simp)
    | cons b t₂ =>
      have hab : a ∈ b :: t₂ := hp.mem_iff.1 (List.mem_cons_self _ _)
      have hba : b ∈ a :: t₁ := hp.symm.mem_iff.1 (List.mem_cons_self _ _)
      have hr₁ : keyLe a b := by
        rcases List.mem_cons.1 hba with rfl | hb
        · exact le_refl _
        · exact (List.sorted_cons.1 hs₁).1 b hb
      have hr₂ : keyLe b a := by
        rcases List.mem_cons.1 hab with rfl | ha
        · exact le_refl _
        · exact (List.sorted_cons.1 hs₂).1 a ha
      have hfst : a.1 = b.1 := le_antisymm hr₁ hr₂
      have hba' : b ∈ a :: t₁ := hba
      have hAB : a = b :=
        List.inj_on_of_nodup_map hn (List.mem_cons_self _ _) hba' hfst
      subst hAB
      have htp : t₁.Perm t₂ := hp.cons_inv
      have ht₁ : List.Sorted keyLe t₁ := (List.sorted_cons.1 hs₁).2
      have ht₂ : List.Sorted keyLe t₂ := (List.sorted_cons.1 hs₂).2
      have hnt : (t₁.map Prod.fst).Nodup := by
        simpa using List.Nodup.of_cons (by simpa using hn)
      rw [ih t₂ ht₁ ht₂ htp hnt]

theorem sortEntries_perm_eq (l₁ l₂ : List (String × String)) (hp : l₁.Perm l₂)
    (hn : (l₁.map Prod.fst).Nodup) : sortEntries l₁ = sortEntries l₂ := by
  have h₁ : (sortEntries l₁).Perm l₁ := List.perm_insertionSort keyLe l₁
  have h₂ : (sortEntries l₂).Perm l₂ := List.perm_insertionSort keyLe l₂
  have hps : (sortEntries l₁).Perm (sortEntries l₂) := (h₁.trans hp).trans h₂.symm
  have hns : ((sortEntries l₁).map Prod.fst).Nodup := ((h₁.map Prod.fst).nodup_iff).2 hn
  exact sorted_nodup_fst_perm_eq (sortEntries l₁) (sortEntries l₂)
    (List.sorted_insertionSort keyLe l₁) (List.sorted_insertionSort keyLe l₂) hps hns

theorem jdumpsEntries_eq_map (fs : List (String × JVal)) :
    jdumpsEntries fs = fs.map (fun kv => (kv.1, jdumps kv.2)) := by
  induction fs with
  | nil => rfl
  | cons kv fs ih => simp [jdumpsEntries, ih]

theorem jdumps_jobj_perm (fs₁ fs₂ : List (String × JVal)) (hp : fs₁.Perm fs₂)
    (hn : (fs₁.map Prod.fst).Nodup) : jdumps (JVal.jobj fs₁) = jdumps (JVal.jobj fs₂) := by
  have hpe : (jdumpsEntries fs₁).Perm (jdumpsEntries fs₂) := by
    rw [jdumpsEntries_eq_map, jdumpsEntries_eq_map]
    exact hp.map _
  have hne : ((jdumpsEntries fs₁).map Prod.fst).Nodup := by
    rw [jdumpsEntries_eq_map, List.map_map]
    simpa [Function.comp] using hn
  show "\x7b" ++ String.intercalate ", " ((sortEntries (jdumpsEntries fs₁)).map jentry) ++ "\x7d"
      = "\x7b" ++ String.intercalate ", " ((sortEntries (jdumpsEntries fs₂)).map jentry) ++ "\x7d"
  rw [sortEntries_perm_eq (jdumpsEntries fs₁) (jdumpsEntries fs₂) hpe hne]

theorem dictGet_eq_some_iff (fs : List (String × JVal)) (k : String) (v : JVal)
    (hn : (fs.map Prod.fst).Nodup) : dictGet fs k = some v ↔ (k, v) ∈ fs := by
  constructor
  · intro h
    unfold dictGet at h
    cases hf : fs.find? (fun p => p.1 == k) with
    | none => rw [hf] at h; simp at h
    | some q =>
      rw [hf] at h
      have hqk : q.1 = k := by simpa using List.find?_some hf
      have hqv : q.2 = v := by simpa using h
      have : q = (k, v) := by
        obtain ⟨q1, q2⟩ := q
        simp_all
      exact this ▸ List.mem_of_find?_eq_some hf
  · intro h
    unfold dictGet
    cases hf : fs.find? (fun p => p.1 == k) with
    | none =>
      rw [List.find?_eq_none] at hf
      exact absurd (by simp : ((k, v).1 == k) = true) (by simpa using hf (k, v) h)
    | some q =>
      have hqk : q.1 = k := by simpa using List.find?_some hf
      have hq : q = (k, v) :=
        List.inj_on_of_nodup_map hn (List.mem_of_find?_eq_some hf) h (by simpa using hqk)
      simp [hq]

theorem dictGet_perm (fs₁ fs₂ : List (String × JVal)) (hp : fs₁.Perm fs₂)
    (hn : (fs₁.map Prod.fst).Nodup) (k : String) : dictGet fs₁ k = dictGet fs₂ k := by
  have hn₂ : (fs₂.map Prod.fst).Nodup := ((hp.map Prod.fst).nodup_iff).1 hn
  cases hg : dictGet fs₂ k with
  | some v =>
    rw [dictGet_eq_some_iff fs₁ k v hn]
    exact hp.mem_iff.2 ((dictGet_eq_some_iff fs₂ k v hn₂).1 hg)
  | none =>
    cases hg₁ : dictGet fs₁ k with
    | none => rfl
    | some v =>
      have : (k, v) ∈ fs₂ := hp.mem_iff.1 ((dictGet_eq_some_iff fs₁ k v hn).1 hg₁)
      rw [(dictGet_eq_some_iff fs₂ k v hn₂).2 this] at hg
      simp at hg

theorem client_keyLoop_perm (fs₁ fs₂ : List (String × JVal)) (hp : fs₁.Perm fs₂)
    (hn : (fs₁.map Prod.fst).Nodup) :
    ∀ ks, client_keyLoop fs₁ ks = client_keyLoop fs₂ ks := by
  intro ks
  induction ks with
  | nil =>
    show ("raw", jdumps (JVal.jobj fs₁)) = ("raw", jdumps (JVal.jobj fs₂))
    rw [jdumps_jobj_perm fs₁ fs₂ hp hn]
  | cons k ks ih =>
    show (match dictGet fs₁ k with
      | some (JVal.jstr v) => if pyStrip v = "" then client_keyLoop fs₁ ks else (k, pyStrip v)
      | _ => client_keyLoop fs₁ ks)
      = (match dictGet fs₂ k with
      | some (JVal.jstr v) => if pyStrip v = "" then client_keyLoop fs₂ ks else (k, pyStrip v)
      | _ => client_keyLoop fs₂ ks)
    rw [← dictGet_perm fs₁ fs₂ hp hn k]
    cases dictGet fs₁ k with
    | none => exact ih
    | some v =>
      cases v with
      | jstr s =>
        by_cases hs : pyStrip s = ""
        · simp only [if_pos hs]
          exact ih
        · simp only [if_neg hs]
      | jnull => exact ih
      | jbool b => exact ih
      | jnum n => exact ih
      | jarr xs => exact ih
      | jobj gs => exact ih

theorem client_key_perm (fs₁ fs₂ : List (String × JVal)) (hp : fs₁.Perm fs₂)
    (hn : (fs₁.map Prod.fst).Nodup) : client_key fs₁ = client_key fs₂ :=
  client_keyLoop_perm fs₁ fs₂ hp hn keyCandidates

theorem client_keyLoop_skip (c : List (String × JVal)) (k : String) (ks : List String)
    (h : ¬ qualifies c k) : client_keyLoop c (k :: ks) = client_keyLoop c ks := by
  show (match dictGet c k with
    | some (JVal.jstr v) => if pyStrip v = "" then client_keyLoop c ks else (k, pyStrip v)
    | _ => client_keyLoop c ks) = client_keyLoop c ks
  cases hd : dictGet c k with
  | none => rfl
  | some v =>
    cases v with
    | jstr s =>
      by_cases hs : pyStrip s = ""
      · simp [hs]
      · exact absurd ⟨s, hd, hs⟩ h
    | jnull => rfl
    | jbool b => rfl
    | jnum n => rfl
    | jarr xs => rfl
    | jobj gs => rfl

theorem client_keyLoop_hit (c : List (String × JVal)) (k : String) (ks : List String)
    (v : String) (hd : dictGet c k = some (JVal.jstr v)) (hv : pyStrip v ≠ "") :
    client_keyLoop c (k :: ks) = (k, pyStrip v) := by
  show (match dictGet c k with
    | some (JVal.jstr w) => if pyStrip w = "" then client_keyLoop c ks else (k, pyStrip w)
    | _ => client_keyLoop c ks) = (k, pyStrip v)
  rw [hd]
  simp [hv]

theorem client_keyLoop_all_skip (c : List (String × JVal)) :
    ∀ ks, (∀ k ∈ ks, ¬ qualifies c k) → client_keyLoop c ks = ("raw", jdumps (JVal.jobj c)) := by
  intro ks
  induction ks with
  | nil => intro _; rfl
  | cons k ks ih =>
    intro h
    rw [client_keyLoop_skip c k ks (h k (List.mem_cons_self _ _))]
    exact ih (fun k' hk' => h k' (List.mem_cons_of_mem _ hk'))

theorem client_keyLoop_prefix_skip (c : List (String × JVal)) :
    ∀ pre rest, (∀ k ∈ pre, ¬ qualifies c k) →
      client_keyLoop c (pre ++ rest) = client_keyLoop c rest := by
  intro pre
  induction pre with
  | nil => intro rest _; rfl
  | cons k pre ih =>
    intro rest h
    rw [List.cons_append, client_keyLoop_skip c k (pre ++ rest) (h k (List.mem_cons_self _ _))]
    exact ih rest (fun k' hk' => h k' (List.mem_cons_of_mem _ hk'))

theorem resolveSources_missing (lookup : Nat → Option Nat) :
    ∀ ports, (resolveSources lookup ports).2 = ports.filter (fun p => falsyId (lookup p)) := by
  intro ports
  induction ports with
  | nil => rfl
  | cons p ps ih =>
    rcases hr : resolveSources lookup ps with ⟨ids, missing⟩
    have ih' : missing = ps.filter (fun p => falsyId (lookup p)) := by
      rw [hr] at ih
      exact ih
    cases hl : lookup p with
    | none =>
      simp only [resolveSources, hr, hl, List.filter_cons]
      simp_all [falsyId]
    | some n =>
      by_cases hn : (n == 0) = true
      · simp only [resolveSources, hr, hl, if_pos hn, List.filter_cons]
        simp_all [falsyId]
      · simp only [resolveSources, hr, hl, if_neg hn, List.filter_cons]
        simp only [Bool.not_eq_true] at hn
        simp_all [falsyId]

/-! ### The claims -/

/-- C3: in TABLE mode the qualifying source rows are inserted by one
statement inside one transaction (`BEGIN; INSERT ...; COMMIT;`); under
SQLite's atomic-commit contract, modelled by `runTableTxn`, a failed
apply leaves the target's row count exactly as before, and every outcome
is either the untouched table or the fully-inserted table — no
intermediate state with only part of the qualifying rows exists. -/
theorem c3_table_atomic (db : List CRow) (t : Nat) (srcs : List Nat) :
    countTarget (runTableTxn db t srcs true) t = countTarget db t ∧
    ∀ fails, runTableTxn db t srcs fails = db ∨
      runTableTxn db t srcs fails = db ++ newRows db t srcs := by
  refine ⟨rfl, ?_⟩
  intro fails
  cases fails
  · exact Or.inr rfl
  · exact Or.inl rfl

/-- C4: the key extractor is total (a total Lean function by
construction, mirroring that every Python operation it performs is
non-raising on dict input) and deterministic; it tries `uuid`, `id`,
`email`, `password` in that order and returns the first present,
non-empty, string-typed value as `(attr, stripped value)`; if none
qualify it returns `("raw", serialisation with sorted attribute names)`,
so records equal up to attribute order get equal keys. -/
theorem c4_key_extractor :
    (∀ c : List (String × JVal), (∀ k ∈ keyCandidates, ¬ qualifies c k) →
      client_key c = ("raw", jdumps (JVal.jobj c))) ∧
    (∀ (c : List (String × JVal)) (pre post : List String) (k v : String),
      keyCandidates = pre ++ k :: post → (∀ k' ∈ pre, ¬ qualifies c k') →
      dictGet c k = some (JVal.jstr v) → pyStrip v ≠ "" →
      client_key c = (k, pyStrip v)) ∧
    (∀ c₁ c₂ : List (String × JVal), (c₁.map Prod.fst).Nodup → c₁.Perm c₂ →
      client_key c₁ = client_key c₂) := by
  refine ⟨?_, ?_, ?_⟩
  · intro c h
    exact client_keyLoop_all_skip c keyCandidates h
  · intro c pre post k v hcand hpre hd hv
    unfold client_key
    rw [hcand, client_keyLoop_prefix_skip c pre (k :: post) hpre]
    exact client_keyLoop_hit c k post v hd hv
  · intro c₁ c₂ hn hp
    exact client_key_perm c₁ c₂ hp hn

/-- C4 witness: on the record `\x7b"uuid": " U1 "\x7d` the extractor
picks the `uuid` attribute with its stripped value. -/
theorem c4_key_extractor_witness :
    client_key [("uuid", JVal.jstr " U1 ")] = ("uuid", "U1") :=
  (c4_key_extractor.2.1 [("uuid", JVal.jstr " U1 ")] [] ["id", "email", "password"]
    "uuid" " U1 " rfl (by simp) rfl (by decide)).trans (by decide)

/-- C6: `merge_confirm` resolves the target first and then every source
port; when at least one source is missing it reports all missing sources
together in one error — exactly the ports whose lookup is falsy, in the
caller-given order — and returns the state untouched: the engine is
never invoked. -/
theorem c6_validation {σ β : Type} (lookup : Nat → Option Nat) (tport : Nat)
    (sports : List Nat) (st : σ) (engine : σ → Nat → List Nat → σ × β) (tid : Nat)
    (ht : lookup tport = some tid) (ht0 : (tid == 0) = false)
    (hmiss : ∃ p ∈ sports, falsyId (lookup p) = true) :
    merge_confirm_model lookup tport sports st engine
      = (st, Except.error (VErr.sourcesNotFound
          (sports.filter (fun p => falsyId (lookup p))))) := by
  unfold merge_confirm_model
  rw [ht]
  simp only [ht0, Bool.false_eq_true, if_false]
  rcases hrs : resolveSources lookup sports with ⟨sids, missing⟩
  have hm : missing = sports.filter (fun p => falsyId (lookup p)) := by
    have := resolveSources_missing lookup sports
    rw [hrs] at this
    exact this
  have hne : missing.isEmpty = false := by
    obtain ⟨p, hp, hf⟩ := hmiss
    rw [hm]
    have hpmem : p ∈ sports.filter (fun p => falsyId (lookup p)) :=
      List.mem_filter.2 ⟨hp, hf⟩
    cases hfil : sports.filter (fun p => falsyId (lookup p)) with
    | nil => rw [hfil] at hpmem; simp at hpmem
    | cons q qs => rfl
  simp [hne, hm]
  exact hmiss

/-- C6 witness: target port 443 resolves, source port 2 resolves, source
port 3 does not; the call reports `sourcesNotFound [3]` and leaves the
state (here a counter) untouched. -/
theorem c6_validation_witness :
    merge_confirm_model
      (fun p => if p = 443 then some 9 else if p = 2 then some 20 else none)
      443 [2, 3] (0 : Nat) (fun st _ _ => (st + 1, true))
      = (0, Except.error (VErr.sourcesNotFound [3])) := by
  rw [c6_validation
    (fun p => if p = 443 then some 9 else if p = 2 then some 20 else none)
    443 [2, 3] (0 : Nat) (fun st _ _ => (st + 1, true)) 9 (by decide) (by decide)
    ⟨3, by decide, by decide⟩]
  rfl

/-- C7 counterexample: a target settings blob that *is* valid JSON but
not an object (the text `5`) makes the strategy fail at the very first
attribute access (`tset.get("clients")` raises `AttributeError`),
before any write — so the final write is not the only step of the JSON
strategy that can fail, refuting the claim's failure-mode clause. -/
theorem c7_counterexample :
    mergeJson [(1, SettingsVal.jsonText (JVal.jnum 5))] 1 [] "settings"
      = Except.error "AttributeError" := rfl

/-- C7 amended: a settings blob that is absent, `NULL`, empty, or not
parseable as JSON degrades to the empty object and never aborts; a
`clients` value that is not a list is skipped; and the strategy reaches
its final write (the model's only further effect) whenever no settings
blob in the database parses to a non-object JSON value — the one
uncovered abort, exhibited by the counterexample, being attribute access
on such a value. -/
theorem c7_json_availability (db : JDb) (t : Nat) (srcs : List Nat) (col : String)
    (hg : ∀ p ∈ db, goodCell p.2 = true) :
    ∃ r db', mergeJson db t srcs col = Except.ok (r, db') :=
  mergeJson_ok_of_good db t srcs col hg

/-- C7 witness: a database whose target blob is unparseable text and
whose source blob is `NULL` still merges successfully. -/
theorem c7_json_availability_witness :
    ∃ r db',
      mergeJson [(1, SettingsVal.malformed "not json"), (2, SettingsVal.nullVal)] 1 [2]
        "settings" = Except.ok (r, db') :=
  c7_json_availability [(1, SettingsVal.malformed "not json"), (2, SettingsVal.nullVal)]
    1 [2] "settings" (by decide)

/-- C8 counterexample: a database with a `clients` table but *no*
profile (`inbounds`) table is classified straight into TABLE mode — the
profile table's existence is never checked first and no
`NotAnInboundsDatabase`-style outcome exists in the script (its only
error emissions are `ERR_NO_CLIENTS_TABLE`, `ERR_NO_UUID`,
`ERR_NO_SETTINGS_COL`, plus the tool-presence checks), refuting the
claimed check order. -/
theorem c8_counterexample :
    classify ⟨["clients"], [], ["id", "inbound_id", "uuid"]⟩ = Classified.table := rfl

/-- C8 amended: classification first checks for a `clients` table
(TABLE mode, requiring a copyable column and a `uuid` column), otherwise
scans the prioritised settings-column candidates on the profile table
(JSON mode; `NoSettingsColumn` when none matches, which is also what a
missing profile table produces, since its column list is then empty);
there is no separate profile-table existence check.  Classification is a
pure function of the schema — it performs no mutation. -/
theorem c8_classification (s : Schema) :
    (classify s = Classified.table ↔
      s.tables.contains "clients" = true ∧ copyableCols s ≠ [] ∧
        s.clientsCols.contains "uuid" = true) ∧
    (∀ col, classify s = Classified.json col ↔
      s.tables.contains "clients" = false ∧ settingsColOf s.inboundsCols = some col) ∧
    (classify s = Classified.errNoClientsTable ↔
      s.tables.contains "clients" = true ∧ copyableCols s = []) ∧
    (classify s = Classified.errNoUuid ↔
      s.tables.contains "clients" = true ∧ copyableCols s ≠ [] ∧
        s.clientsCols.contains "uuid" = false) ∧
    (classify s = Classified.errNoSettingsCol ↔
      s.tables.contains "clients" = false ∧ settingsColOf s.inboundsCols = none) := by
  unfold classify
  cases h1 : s.tables.contains "clients" with
  | true =>
    by_cases h2 : copyableCols s = []
    · simp [h2]
    · cases h3 : s.clientsCols.contains "uuid" with
      | true => simp [h2, h3]
      | false => simp [h2, h3]
  | false =>
    cases hs : settingsColOf s.inboundsCols with
    | none => simp [hs]
    | some c => simp [hs]

/-- C1 counterexample: in TABLE mode the single insert statement
deduplicates only against the target's pre-statement uuids, not among
the inserted rows themselves.  With two source rows sharing uuid `B`
and target profile 1 initially empty, the merge completes successfully
(`added = 2`) and the target's final set holds two rows with the same
DedupKey `("uuid", "B")` — refuting the claimed invariant. -/
theorem c1_counterexample :
    (mergeTable [CRow.mk 2 (some "B") [], CRow.mk 2 (some "B") []] 1 [2]).1.added = 2 ∧
    ((mergeTable [CRow.mk 2 (some "B") [], CRow.mk 2 (some "B") []] 1 [2]).2.filter
        (fun r => r.inbound_id == 1 && r.uuid == some "B")).length = 2 := by
  exact ⟨rfl, rfl⟩

/-- C1 amended: in TABLE mode every inserted row's uuid is non-`NULL`
and distinct from every pre-merge target uuid, but two inserted rows may
share a uuid (no dedup among the sources themselves, as the
counterexample shows).  In JSON mode the appended records have pairwise
distinct DedupKeys, each also distinct from the key of every pre-existing
dict client of the target. -/
theorem c1_dedup :
    (∀ (db : List CRow) (t : Nat) (srcs : List Nat), ∀ r ∈ newRows db t srcs,
      ∃ v, r.uuid = some v ∧ some v ∉ uuidsOf db t) ∧
    (∀ (db : JDb) (t : Nat) (srcs : List Nat) (col : String) (r : JResult) (db' : JDb),
      mergeJson db t srcs col = Except.ok (r, db') →
      ∃ tfs suf,
        load_settings db t = JVal.jobj tfs ∧
        db' = save_settings db t
          (setKey tfs "clients" (JVal.jarr (clientsList tfs ++ suf))) ∧
        List.Pairwise (fun c d => keyOf c ≠ keyOf d) suf ∧
        (∀ c ∈ suf, ∀ k, keyOf c = some k →
          k ∉ (clientsList tfs).filterMap keyOf)) := by
  constructor
  · intro db t srcs r hr
    simp only [newRows, List.mem_map, List.mem_filter] at hr
    obtain ⟨r₀, ⟨_, hq⟩, rfl⟩ := hr
    have hn : sqlNotIn r₀.uuid (uuidsOf db t) = true := by
      rcases Bool.and_eq_true .. ▸ hq with ⟨_, h2⟩
      exact h2
    obtain ⟨v, hv, hnin, _⟩ := (sqlNotIn_true_iff r₀.uuid (uuidsOf db t)).1 hn
    exact ⟨v, hv, hnin⟩
  · intro db t srcs col r db' h
    obtain ⟨tfs, ex', tcl', hload, hms, _, _, hdb⟩ := mergeJson_ok db t srcs col r db' h
    obtain ⟨suf, h1, _, _, h4, h5, _⟩ :=
      mergeSources_spec db srcs ((clientsList tfs).filterMap keyOf) ex'
        (clientsList tfs) tcl' 0 r.added hms
    refine ⟨tfs, suf, hload, ?_, h4, h5⟩
    rw [hdb, h1]

/-- C1 witness: with one source row carrying uuid `A` and an empty
target, the inserted row's uuid is not among the target's pre-merge
uuids. -/
theorem c1_dedup_witness :
    ∃ v, (CRow.mk 1 (some "A") []).uuid = some v ∧
      some v ∉ uuidsOf [CRow.mk 2 (some "A") []] 1 :=
  c1_dedup.1 [CRow.mk 2 (some "A") []] 1 [2] (CRow.mk 1 (some "A") []) (by decide)

/-- C5: in JSON mode the target's post-merge clients array is exactly
its pre-merge array followed by the appended records, and the appended
records form a sublist of the concatenation of the sources' client lists
taken in the caller-given source order — i.e. the pre-existing prefix is
untouched and new clients arrive in source-then-within-source-original
order. -/
theorem c5_order_preservation (db : JDb) (t : Nat) (srcs : List Nat) (col : String)
    (r : JResult) (db' : JDb)
    (h : mergeJson db t srcs col = Except.ok (r, db')) :
    ∃ tfs suf,
      load_settings db t = JVal.jobj tfs ∧
      db' = save_settings db t
        (setKey tfs "clients" (JVal.jarr (clientsList tfs ++ suf))) ∧
      suf.Sublist (flattenClients db srcs) := by
  obtain ⟨tfs, ex', tcl', hload, hms, _, _, hdb⟩ := mergeJson_ok db t srcs col r db' h
  obtain ⟨suf, h1, h2, _⟩ :=
    mergeSources_spec db srcs ((clientsList tfs).filterMap keyOf) ex'
      (clientsList tfs) tcl' 0 r.added hms
  refine ⟨tfs, suf, hload, ?_, h2⟩
  rw [hdb, h1]

/-- C5 witness: the spec's JSON scenario — target holds
`x@a.com`, the source holds `x@a.com` and `y@a.com`; the merge keeps the
target's array as prefix and appends only `y@a.com`. -/
theorem c5_order_preservation_witness :
    ∃ tfs suf,
      load_settings
        [(1, SettingsVal.jsonText (JVal.jobj
            [("clients", JVal.jarr [JVal.jobj [("email", JVal.jstr "x@a.com")]])])),
         (2, SettingsVal.jsonText (JVal.jobj
            [("clients", JVal.jarr [JVal.jobj [("email", JVal.jstr "x@a.com")],
              JVal.jobj [("email", JVal.jstr "y@a.com")]])]))] 1 = JVal.jobj tfs ∧
      [(1, SettingsVal.jsonText (JVal.jobj
          [("clients", JVal.jarr [JVal.jobj [("email", JVal.jstr "x@a.com")],
            JVal.jobj [("email", JVal.jstr "y@a.com")]])])),
       (2, SettingsVal.jsonText (JVal.jobj
          [("clients", JVal.jarr [JVal.jobj [("email", JVal.jstr "x@a.com")],
            JVal.jobj [("email", JVal.jstr "y@a.com")]])]))]
        = save_settings
            [(1, SettingsVal.jsonText (JVal.jobj
                [("clients", JVal.jarr [JVal.jobj [("email", JVal.jstr "x@a.com")]])])),
             (2, SettingsVal.jsonText (JVal.jobj
                [("clients", JVal.jarr [JVal.jobj [("email", JVal.jstr "x@a.com")],
                  JVal.jobj [("email", JVal.jstr "y@a.com")]])]))] 1
            (setKey tfs "clients" (JVal.jarr (clientsList tfs ++ suf))) ∧
      suf.Sublist (flattenClients
        [(1, SettingsVal.jsonText (JVal.jobj
            [("clients", JVal.jarr [JVal.jobj [("email", JVal.jstr "x@a.com")]])])),
         (2, SettingsVal.jsonText (JVal.jobj
            [("clients", JVal.jarr [JVal.jobj [("email", JVal.jstr "x@a.com")],
              JVal.jobj [("email", JVal.jstr "y@a.com")]])]))] [2]) :=
  c5_order_preservation _ 1 [2] "settings" ⟨1, 2, "settings"⟩ _ rfl

/-- C9 counterexample: a successful JSON-mode merge emits
`OK_MODE=JSON OK_ADDED=<n> TARGET_CLIENTS=<n> SETTINGS_COL=<col>` — the
third and fourth fields are not `BEFORE=<n>` / `AFTER=<n>`, so the
emitted line does not match the claimed single result-line format. -/
theorem c9_counterexample :
    (runMergeScript ⟨⟨["inbounds"], ["id", "settings"], []⟩, [],
        [(1, SettingsVal.jsonText (JVal.jobj []))]⟩ 1 [2]).1
      = ScriptOut.okLine "OK_MODE=JSON OK_ADDED=0 TARGET_CLIENTS=0 SETTINGS_COL=settings" ∧
    specOkFormat "OK_MODE=JSON OK_ADDED=0 TARGET_CLIENTS=0 SETTINGS_COL=settings" = false :=
  ⟨rfl, by decide⟩

/-- C9 amended: each outcome of the script emits one structured line:
TABLE-mode success `OK_MODE=TABLE OK_ADDED=<after-before> BEFORE=<n>
AFTER=<n>`, JSON-mode success `OK_MODE=JSON OK_ADDED=<n>
TARGET_CLIENTS=<n> SETTINGS_COL=<col>`, and the script's own schema
failures an `ERR_...` line with a distinct numeric exit code; an uncaught
interpreter exception (JSON strategy aborting on a non-object settings
value) produces no structured line, only a bare non-zero exit. -/
theorem c9_result_lines (db : Database) (t : Nat) (srcs : List Nat) :
    (classify db.schema = Classified.table →
      runMergeScript db t srcs
        = (ScriptOut.okLine (lineTable (countTarget db.clients t)
            (countTarget (db.clients ++ newRows db.clients t srcs) t)),
           { db with clients := db.clients ++ newRows db.clients t srcs })) ∧
    (∀ col r rows', classify db.schema = Classified.json col →
      mergeJson db.inbounds t srcs col = Except.ok (r, rows') →
      runMergeScript db t srcs
        = (ScriptOut.okLine (lineJson r), { db with inbounds := rows' })) ∧
    (∀ col e, classify db.schema = Classified.json col →
      mergeJson db.inbounds t srcs col = Except.error e →
      runMergeScript db t srcs = (ScriptOut.crash 1, db)) ∧
    (classify db.schema = Classified.errNoClientsTable →
      runMergeScript db t srcs = (ScriptOut.errLine "ERR_NO_CLIENTS_TABLE" 11, db)) ∧
    (classify db.schema = Classified.errNoUuid →
      runMergeScript db t srcs = (ScriptOut.errLine "ERR_NO_UUID" 12, db)) ∧
    (classify db.schema = Classified.errNoSettingsCol →
      runMergeScript db t srcs = (ScriptOut.errLine "ERR_NO_SETTINGS_COL" 20, db)) := by
  refine ⟨?_, ?_, ?_, ?_, ?_, ?_⟩
  · intro h
    unfold runMergeScript
    rw [h]
    rfl
  · intro col r rows' h hok
    unfold runMergeScript
    rw [h]
    simp only []
    rw [hok]
  · intro col e h herr
    unfold runMergeScript
    rw [h]
    simp only []
    rw [herr]
  · intro h
    unfold runMergeScript
    rw [h]
  · intro h
    unfold runMergeScript
    rw [h]
  · intro h
    unfold runMergeScript
    rw [h]

/-- C9 witness: a concrete TABLE-mode run emits the TABLE line with the
real before/after counts. -/
theorem c9_result_lines_witness :
    runMergeScript ⟨⟨["clients", "inbounds"], ["id", "settings"],
        ["id", "inbound_id", "uuid"]⟩, [CRow.mk 2 (some "A") []], []⟩ 1 [2]
      = (ScriptOut.okLine "OK_MODE=TABLE OK_ADDED=1 BEFORE=0 AFTER=1",
         ⟨⟨["clients", "inbounds"], ["id", "settings"], ["id", "inbound_id", "uuid"]⟩,
          [CRow.mk 2 (some "A") [], CRow.mk 1 (some "A") []], []⟩) :=
  ((c9_result_lines ⟨⟨["clients", "inbounds"], ["id", "settings"],
      ["id", "inbound_id", "uuid"]⟩, [CRow.mk 2 (some "A") []], []⟩ 1 [2]).1 rfl).trans
    (by rfl)

/-- C10 counterexample: with the target id absent from the profile table
but a source blob parsing to the non-object JSON value `5`, the JSON
merge does not complete: it crashes with no OK line (the database is
still unchanged).  The claim's unconditional "still completes
successfully" is refuted. -/
theorem c10_counterexample :
    runMergeScript ⟨⟨["inbounds"], ["id", "settings"], []⟩, [],
        [(2, SettingsVal.jsonText (JVal.jnum 5))]⟩ 1 [2]
      = (ScriptOut.crash 1, ⟨⟨["inbounds"], ["id", "settings"], []⟩, [],
          [(2, SettingsVal.jsonText (JVal.jnum 5))]⟩) := rfl

/-- C10 amended: in JSON mode, when the target id has no profile row and
no settings blob parses to a non-object JSON value, the merge completes
with an OK line carrying the added count it computed, while the database
is left completely unchanged: the missing target loads as the empty
object and the final UPDATE matches zero rows. -/
theorem c10_missing_target (db : Database) (t : Nat) (srcs : List Nat) (col : String)
    (hcls : classify db.schema = Classified.json col)
    (habs : ∀ p ∈ db.inbounds, p.1 ≠ t)
    (hg : ∀ p ∈ db.inbounds, goodCell p.2 = true) :
    ∃ r : JResult, runMergeScript db t srcs = (ScriptOut.okLine (lineJson r), db) := by
  have hload : load_settings db.inbounds t = JVal.jobj [] := by
    unfold load_settings
    rw [List.find?_eq_none.2 (by intro p hp; simpa using habs p hp)]
  obtain ⟨⟨ex', tcl', added⟩, hms⟩ :=
    mergeSources_ok_of_loads db.inbounds srcs ((clientsList []).filterMap keyOf)
      (clientsList []) 0 (fun sid _ => load_goodCell db.inbounds sid hg)
  have hjson : mergeJson db.inbounds t srcs col
      = Except.ok (⟨added, tcl'.length, col⟩,
          save_settings db.inbounds t (setKey [] "clients" (JVal.jarr tcl'))) := by
    unfold mergeJson
    rw [hload]
    simp only []
    rw [hms]
  have hsave : save_settings db.inbounds t (setKey [] "clients" (JVal.jarr tcl'))
      = db.inbounds := save_absent db.inbounds t _ habs
  refine ⟨⟨added, tcl'.length, col⟩, ?_⟩
  unfold runMergeScript
  rw [hcls]
  simp only []
  rw [hjson]
  simp only []
  rw [hsave]

/-- C10 witness: target id 9 has no row; the merge still reports OK and
the single inbounds row (a source) is untouched. -/
theorem c10_missing_target_witness :
    ∃ r : JResult,
      runMergeScript ⟨⟨["inbounds"], ["id", "settings"], []⟩, [],
          [(2, SettingsVal.jsonText (JVal.jobj
            [("clients", JVal.jarr [JVal.jobj [("email", JVal.jstr "e")]])]))]⟩ 9 [2]
        = (ScriptOut.okLine (lineJson r),
           ⟨⟨["inbounds"], ["id", "settings"], []⟩, [],
            [(2, SettingsVal.jsonText (JVal.jobj
              [("clients", JVal.jarr [JVal.jobj [("email", JVal.jstr "e")]])]))]⟩) :=
  c10_missing_target _ 9 [2] "settings" rfl (by decide) (by decide)

/-- C2: re-running the identical merge immediately after a first run is
a no-op.  TABLE mode: the second run of the single insert statement
inserts nothing (`added = 0`) and leaves the table exactly as after the
first run.  JSON mode: when the target profile exists and the first run
succeeded, the second run succeeds with `added = 0`, the same client
count, and a database identical to the state after the first run. -/
theorem c2_idempotent :
    (∀ (db : List CRow) (t : Nat) (srcs : List Nat),
      (mergeTable (mergeTable db t srcs).2 t srcs).1.added = 0 ∧
      (mergeTable (mergeTable db t srcs).2 t srcs).2 = (mergeTable db t srcs).2) ∧
    (∀ (db : JDb) (t : Nat) (srcs : List Nat) (col : String) (r : JResult) (db' : JDb)
      (row : Nat × SettingsVal),
      db.find? (fun p => p.1 == t) = some row →
      mergeJson db t srcs col = Except.ok (r, db') →
      mergeJson db' t srcs col = Except.ok (⟨0, r.target_clients, col⟩, db')) := by
  constructor
  · intro db t srcs
    have h0 : newRows (db ++ newRows db t srcs) t srcs = [] := newRows_of_merged db t srcs
    constructor
    · show countTarget ((db ++ newRows db t srcs)
          ++ newRows (db ++ newRows db t srcs) t srcs) t
        - countTarget (db ++ newRows db t srcs) t = 0
      rw [h0, List.append_nil]
      omega
    · show (db ++ newRows db t srcs) ++ newRows (db ++ newRows db t srcs) t srcs
        = db ++ newRows db t srcs
      rw [h0, List.append_nil]
  · intro db t srcs col r db' row hrow h
    obtain ⟨tfs, ex', tcl', hload, hms, htc, hcol, hdb⟩ := mergeJson_ok db t srcs col r db' h
    obtain ⟨suf, s1, s2, s3, s4, s5, s6, s7, s8, s9⟩ :=
      mergeSources_spec db srcs ((clientsList tfs).filterMap keyOf) ex'
        (clientsList tfs) tcl' 0 r.added hms
    have hload2 : load_settings db' t = JVal.jobj (setKey tfs "clients" (JVal.jarr tcl')) := by
      rw [hdb]
      exact load_save_self db t _ row hrow
    have hcl2 : clientsList (setKey tfs "clients" (JVal.jarr tcl')) = tcl' :=
      clientsList_setKey tfs tcl'
    have hkey2 : ∀ sid ∈ srcs, ∀ c ∈ clientsAt db' sid, ∀ fs, c = JVal.jobj fs →
        client_key fs ∈ tcl'.filterMap keyOf := by
      intro sid hsid c hc fs hcfs
      by_cases hst : sid = t
      · subst hst
        have hAt : clientsAt db' sid = tcl' := by
          unfold clientsAt
          rw [hload2]
          exact hcl2
        rw [hAt] at hc
        subst hcfs
        exact List.mem_filterMap.2 ⟨JVal.jobj fs, hc, keyOf_jobj fs⟩
      · have hAt : clientsAt db' sid = clientsAt db sid := by
          unfold clientsAt
          rw [hdb, load_save_ne db t sid _ hst]
        rw [hAt] at hc
        have hkex : client_key fs ∈ ex' := s7 sid hsid c hc fs hcfs
        rcases (s6 (client_key fs)).1 hkex with hin | ⟨c', hc', hkc'⟩
        · rw [s1, List.filterMap_append]
          exact List.mem_append.2 (Or.inl hin)
        · rw [s1, List.filterMap_append]
          exact List.mem_append.2 (Or.inr (List.mem_filterMap.2 ⟨c', hc', hkc'⟩))
    have hloads2 : ∀ sid ∈ srcs, ∃ fs, load_settings db' sid = JVal.jobj fs := by
      intro sid hsid
      by_cases hst : sid = t
      · subst hst
        exact ⟨_, hload2⟩
      · rw [hdb, load_save_ne db t sid _ hst]
        exact s8 sid hsid
    have hnoNew : mergeSources db' srcs (tcl'.filterMap keyOf) tcl' 0
        = Except.ok (tcl'.filterMap keyOf, tcl', 0) :=
      mergeSources_noNew db' srcs _ tcl' 0 hloads2 hkey2
    have hsetk : setKey (setKey tfs "clients" (JVal.jarr tcl')) "clients" (JVal.jarr tcl')
        = setKey tfs "clients" (JVal.jarr tcl') := setKey_setKey tfs "clients" (JVal.jarr tcl')
    have hsave2 : save_settings db' t (setKey tfs "clients" (JVal.jarr tcl')) = db' := by
      rw [hdb]
      exact save_save db t _
    unfold mergeJson
    rw [hload2]
    simp only []
    rw [hcl2, hnoNew]
    simp only []
    rw [hsetk, hsave2, htc]

/-- C2 witness: running the merge on its own output database adds
nothing and returns that database unchanged. -/
theorem c2_idempotent_witness :
    mergeJson
      [(1, SettingsVal.jsonText (JVal.jobj [("clients", JVal.jarr
          [JVal.jobj [("uuid", JVal.jstr "u1")], JVal.jobj [("uuid", JVal.jstr "u2")]])])),
       (2, SettingsVal.jsonText (JVal.jobj [("clients", JVal.jarr
          [JVal.jobj [("uuid", JVal.jstr "u2")]])]))] 1 [2] "settings"
      = Except.ok (⟨0, 2, "settings"⟩,
          [(1, SettingsVal.jsonText (JVal.jobj [("clients", JVal.jarr
              [JVal.jobj [("uuid", JVal.jstr "u1")], JVal.jobj [("uuid", JVal.jstr "u2")]])])),
           (2, SettingsVal.jsonText (JVal.jobj [("clients", JVal.jarr
              [JVal.jobj [("uuid", JVal.jstr "u2")]])]))]) :=
  c2_idempotent.2
    [(1, SettingsVal.jsonText (JVal.jobj [("clients", JVal.jarr
        [JVal.jobj [("uuid", JVal.jstr "u1")]])])),
     (2, SettingsVal.jsonText (JVal.jobj [("clients", JVal.jarr
        [JVal.jobj [("uuid", JVal.jstr "u2")]])]))] 1 [2] "settings"
    ⟨1, 2, "settings"⟩
    [(1, SettingsVal.jsonText (JVal.jobj [("clients", JVal.jarr
        [JVal.jobj [("uuid", JVal.jstr "u1")], JVal.jobj [("uuid", JVal.jstr "u2")]])])),
     (2, SettingsVal.jsonText (JVal.jobj [("clients", JVal.jarr
        [JVal.jobj [("uuid", JVal.jstr "u2")]])]))]
    (1, SettingsVal.jsonText (JVal.jobj [("clients", JVal.jarr
        [JVal.jobj [("uuid", JVal.jstr "u1")]])]))
    rfl rfl

end XuiHub
